import Mathlib

/-!
Verification development for the excel-mcp session-multiplexing process
gateway (`src/excel_mcp/proxy_server.py`).

The module under study keeps a registry of stdio worker subprocesses keyed
by session id (`StdioSubprocessManager`), serializes per-session exchanges
under a per-session lock, reaps idle workers, and exposes unary, streaming
and WebSocket gateways.  Below, the manager's three dictionaries are
embedded as association lists (Python dicts preserve insertion order and
replace in place), timestamps are naturals, and the worker subprocess is a
record carrying the attributes termination cares about.  Each definition
mirrors the Python function of the same name.
-/

namespace ExcelProxy

/-- Association lists standing for Python dicts (`str` keys). -/
abbrev AList (α : Type) := List (String × α)

/-- Dict lookup: `d.get(k)` / `k in d`. -/
def alook {α : Type} : AList α → String → Option α
  | [], _ => none
  | (k, v) :: rest, k2 => if k = k2 then some v else alook rest k2

/-- Dict assignment `d[k] = v`: replace in place, else append (insertion order). -/
def aput {α : Type} : AList α → String → α → AList α
  | [], k2, v2 => [(k2, v2)]
  | (k, v) :: rest, k2, v2 =>
      if k = k2 then (k2, v2) :: rest else (k, v) :: aput rest k2 v2

/-- Dict removal `d.pop(k, None)`. -/
def adel {α : Type} (l : AList α) (k2 : String) : AList α :=
  l.filter (fun p => !(p.1 == k2))

theorem alook_aput_self {α : Type} (l : AList α) (k : String) (v : α) :
    alook (aput l k v) k = some v := by
  induction l with
  | nil => simp [aput, alook]
  | cons p rest ih =>
      obtain ⟨k1, v1⟩ := p
      by_cases h : k1 = k
      · simp [aput, h, alook]
      · simp [aput, h, alook, ih]

theorem alook_aput_ne {α : Type} (l : AList α) (k k2 : String) (v : α)
    (hne : k ≠ k2) : alook (aput l k v) k2 = alook l k2 := by
  induction l with
  | nil => simp [aput, alook, hne]
  | cons p rest ih =>
      obtain ⟨k1, v1⟩ := p
      by_cases h : k1 = k
      · subst h
        simp [aput, alook, hne, ih]
      · simp [aput, h, alook, ih]


theorem alook_adel_self {α : Type} (l : AList α) (k : String) :
    alook (adel l k) k = none := by
  induction l with
  | nil => simp [adel, alook]
  | cons p rest ih =>
      obtain ⟨k1, v1⟩ := p
      by_cases h : k1 = k
      · simp only [adel, List.filter_cons] at ih ⊢
        simp [h, ih]
      · simp only [adel, List.filter_cons] at ih ⊢
        simp [h, alook, ih]

theorem alook_adel_ne {α : Type} (l : AList α) (k k2 : String) (hne : k ≠ k2) :
    alook (adel l k) k2 = alook l k2 := by
  induction l with
  | nil => simp [adel, alook]
  | cons p rest ih =>
      obtain ⟨k1, v1⟩ := p
      by_cases h : k1 = k
      · subst h
        simp only [adel, List.filter_cons] at ih ⊢
        simp [alook, ih, Ne.symm hne, hne]
      · simp only [adel, List.filter_cons] at ih ⊢
        by_cases h2 : k1 = k2
        · subst h2

          simp [alook, ih, h]
        · simp [h, alook, h2, ih]

/-- The worker subprocess (`subprocess.Popen`), with the behavioral
attributes the manager observes: the OS pid, whether `wait(timeout=5)`
returns within the grace period, and whether the terminate/wait/kill
sequence raises. -/
structure Proc where
  pid : Nat
  exitsWithinGrace : Bool
  termRaises : Bool
deriving Repr, DecidableEq

/-- State of `StdioSubprocessManager`: the three dicts plus the idle
timeout (300 in `__init__`). -/
structure Manager where
  processes : AList Proc
  process_locks : AList Nat
  last_activity : AList Nat
  idle_timeout : Nat
deriving Repr, DecidableEq

/-- `StdioSubprocessManager.__init__`: empty dicts, idle timeout 300. -/
def Manager.init : Manager :=
  { processes := [], process_locks := [], last_activity := [], idle_timeout := 300 }

/-- `get_or_create_process`: return the registered process (refreshing
`last_activity`), else install the newly spawned process together with a
fresh lock and the current time.  The spawned process and the current time
are passed in (they are environment inputs). -/
def get_or_create_process (m : Manager) (sid : String) (now : Nat)
    (spawned : Proc) : Proc × Manager :=
  match alook m.processes sid with
  | some p => (p, { m with last_activity := aput m.last_activity sid now })
  | none =>
      (spawned,
        { m with
            processes := aput m.processes sid spawned
            process_locks := aput m.process_locks sid 0
            last_activity := aput m.last_activity sid now })

/-- `get_process_lock`: return the session's lock, creating one if the
session has none (lock identity is abstracted to a token). -/
def get_process_lock (m : Manager) (sid : String) : Nat × Manager :=
  match alook m.process_locks sid with
  | some l => (l, m)
  | none => (0, { m with process_locks := aput m.process_locks sid 0 })

/-- Outcome of `terminate_process` for one call. -/
inductive TermOutcome where
  | noProcess
  | graceful
  | forcedKill
  | raisedAbsorbed
deriving Repr, DecidableEq

/-- `terminate_process`: if the session has a registered process,
`terminate()` it, `wait(timeout=5)`, `kill()` on timeout, absorb any
exception, then pop the session from all three dicts; otherwise do
nothing. -/
def terminate_process (m : Manager) (sid : String) : TermOutcome × Manager :=
  match alook m.processes sid with
  | none => (.noProcess, m)
  | some p =>
      let outcome : TermOutcome :=
        if p.termRaises then .raisedAbsorbed
        else if p.exitsWithinGrace then .graceful else .forcedKill
      (outcome,
        { m with
            processes := adel m.processes sid
            process_locks := adel m.process_locks sid
            last_activity := adel m.last_activity sid })

/-- `cleanup_idle_processes`: walk a snapshot of `last_activity.items()`
and `terminate_process` every session idle for more than the timeout. -/
def cleanup_idle_processes (m : Manager) (now : Nat) : Manager :=
  m.last_activity.foldl
    (fun acc kv =>
      if now - kv.2 > acc.idle_timeout then (terminate_process acc kv.1).2 else acc)
    m

/-- `terminate_all`: terminate every registered session. -/
def terminate_all (m : Manager) : Manager :=
  (m.processes.map Prod.fst).foldl (fun acc sid => (terminate_process acc sid).2) m

/-!
The unary gateway parses the worker's response line with `json.loads` and,
on success, re-serializes it with `json.dumps`.  The codec below embeds
the fragment of Python's `json` module on which the embedding is exactly
faithful: null, booleans, decimal integers, strings of printable ASCII
without escapes, and arrays and objects of these (with duplicate object
keys collapsed to the last value at the first position, as Python's dict
construction does).  Whenever `json_loads` returns `some v`, Python's
`json.loads` accepts the same line with the same value and `dumps v` is
byte-for-byte Python's `json.dumps` output.  Lines outside the fragment
(floats, NaN and the infinities, strings with escapes or non-ASCII
characters) are parsed by Python but not by this fragment, so `json_loads
= none` does not by itself mean Python rejects the line; the decidable
class `surelyNotJson` below identifies lines on which Python certainly
raises, and statements about the raw pass-through branch are made only on
that class.
-/

/-- JSON values. -/
inductive J where
  | jnull
  | jbool (b : Bool)
  | jnum (n : Int)
  | jstr (s : String)
  | jarr (xs : List J)
  | jobj (kvs : List (String × J))

mutual

/-- `json.dumps` with default separators. -/
def dumps : J → String
  | .jnull => "null"
  | .jbool true => "true"
  | .jbool false => "false"
  | .jnum n => toString n
  | .jstr s => "\"" ++ s ++ "\""
  | .jarr xs => "[" ++ dumpsArr xs ++ "]"
  | .jobj kvs => "\x7b" ++ dumpsObj kvs ++ "\x7d"

/-- Array elements joined by a comma and a space. -/
def dumpsArr : List J → String
  | [] => ""
  | [x] => dumps x
  | x :: y :: rest => dumps x ++ ", " ++ dumpsArr (y :: rest)

/-- Object members joined by a comma and a space, colon-space after keys. -/
def dumpsObj : List (String × J) → String
  | [] => ""
  | [(k, v)] => "\"" ++ k ++ "\": " ++ dumps v
  | (k, v) :: q :: rest => "\"" ++ k ++ "\": " ++ dumps v ++ ", " ++ dumpsObj (q :: rest)

end

/-- JSON whitespace, as skipped by Python's decoder. -/
def isWs (c : Char) : Bool := c = ' ' || c = '\t' || c = '\n' || c = '\r'

/-- Drop leading JSON whitespace. -/
def skipWs : List Char → List Char
  | [] => []
  | c :: cs => if isWs c then skipWs cs else c :: cs

/-- ASCII digit test. -/
def isDig (c : Char) : Bool := '0' ≤ c && c ≤ '9'

/-- Split off the leading run of digits. -/
def spanDigits : List Char → List Char × List Char
  | [] => ([], [])
  | c :: cs =>
      if isDig c then
        let p := spanDigits cs
        (c :: p.1, p.2)
      else ([], c :: cs)

/-- Decimal value of a digit run. -/
def digitsToNat (ds : List Char) : Nat :=
  ds.foldl (fun a c => a * 10 + (c.toNat - 48)) 0

/-- JSON unsigned integer token: 0, or a nonzero leading digit run. -/
def parseNat : List Char → Option (Nat × List Char)
  | [] => none
  | c :: rest =>
      if c = '0' then some (0, rest)
      else if isDig c then
        let p := spanDigits rest
        some (digitsToNat (c :: p.1), p.2)
      else none

/-- JSON integer token with optional sign. -/
def parseIntTok : List Char → Option (Int × List Char)
  | [] => none
  | c :: cs =>
      if c = '-' then (parseNat cs).map (fun p => (-(p.1 : Int), p.2))
      else (parseNat (c :: cs)).map (fun p => ((p.1 : Int), p.2))

/-- String characters in the modeled fragment: printable ASCII, no quote,
no backslash. -/
def okStrChar (c : Char) : Bool :=
  c ≠ '"' && c ≠ '\\' && 32 ≤ c.toNat && c.toNat ≤ 126

/-- Body of a JSON string up to its closing quote. -/
def parseChars : List Char → Option (List Char × List Char)
  | [] => none
  | c :: cs =>
      if c = '"' then some ([], cs)
      else if okStrChar c then (parseChars cs).map (fun p => (c :: p.1, p.2))
      else none

/-- Match an exact literal continuation of the input. -/
def stripLit : List Char → List Char → Option (List Char)
  | [], l => some l
  | _ :: _, [] => none
  | p :: ps, c :: cs => if c = p then stripLit ps cs else none

/-- Collapse duplicate object keys the way Python's dict construction
does: the last value wins, at the position of the first occurrence. -/
def collapseKeys (ms : List (String × J)) : AList J :=
  ms.foldl (fun acc kv => aput acc kv.1 kv.2) []

mutual

/-- Fueled JSON value parser (`json.loads` on the modeled fragment). -/
def parseJ : Nat → List Char → Option (J × List Char)
  | 0, _ => none
  | fuel + 1, cs =>
      match skipWs cs with
      | [] => none
      | c :: r =>
          if c = 'n' then
            (stripLit ['u', 'l', 'l'] r).map (fun rest => (J.jnull, rest))
          else if c = 't' then
            (stripLit ['r', 'u', 'e'] r).map (fun rest => (J.jbool true, rest))
          else if c = 'f' then
            (stripLit ['a', 'l', 's', 'e'] r).map (fun rest => (J.jbool false, rest))
          else if c = '"' then
            (parseChars r).map (fun p => (J.jstr (String.mk p.1), p.2))
          else if c = '[' then
            match skipWs r with
            | ']' :: r2 => some (.jarr [], r2)
            | r2 => (parseArr fuel r2).map (fun p => (J.jarr p.1, p.2))
          else if c = '\x7b' then
            match skipWs r with
            | '\x7d' :: r2 => some (.jobj [], r2)
            | r2 => (parseObj fuel r2).map (fun p => (J.jobj (collapseKeys p.1), p.2))
          else (parseIntTok (c :: r)).map (fun p => (J.jnum p.1, p.2))

/-- Fueled parser for nonempty array tails. -/
def parseArr : Nat → List Char → Option (List J × List Char)
  | 0, _ => none
  | fuel + 1, cs =>
      match parseJ fuel cs with
      | none => none
      | some (v, r) =>
          match skipWs r with
          | ',' :: r2 =>
              (parseArr fuel r2).map (fun p => (v :: p.1, p.2))
          | ']' :: r2 => some ([v], r2)
          | _ => none

/-- Fueled parser for nonempty object member lists. -/
def parseObj : Nat → List Char → Option (List (String × J) × List Char)
  | 0, _ => none
  | fuel + 1, cs =>
      match skipWs cs with
      | '"' :: r =>
          match parseChars r with
          | none => none
          | some (kcs, r1) =>
              match skipWs r1 with
              | ':' :: r2 =>
                  match parseJ fuel r2 with
                  | none => none
                  | some (v, r3) =>
                      match skipWs r3 with
                      | ',' :: r4 =>
                          (parseObj fuel r4).map
                            (fun p => ((String.mk kcs, v) :: p.1, p.2))
                      | '\x7d' :: r4 => some ([(String.mk kcs, v)], r4)
                      | _ => none
              | _ => none
      | _ => none

end

/-- `json.loads` on a whole input: parse one value, allow trailing
whitespace only. -/
def json_loads (s : String) : Option J :=
  match parseJ (2 * s.length + 4) s.data with
  | some (v, rest) => if (skipWs rest).isEmpty then some v else none
  | none => none

/-- An HTTP success response as built by `handle_request` (FastAPI
`Response`: status 200, body, optional content type, extra headers). -/
structure HttpResp where
  status : Nat
  content : String
  media_type : Option String
  x_session_id : Option String
deriving Repr, DecidableEq

/-- An `HTTPException` surfaced to the client. -/
structure HttpErr where
  status : Nat
  detail : String
deriving Repr, DecidableEq

/-- Behavior of the worker on one unary exchange: either the write of the
request raises, or the blocking `readline` returns a byte string (the
empty string is end-of-stream). -/
inductive WorkerReply where
  | writeRaises (msg : String)
  | readline (line : String)
deriving Repr, DecidableEq

/-- Result of one unary request: the HTTP outcome, the manager state
afterwards, and the byte strings successfully written to the worker's
stdin. -/
structure UnaryResult where
  result : Except HttpErr HttpResp
  post : Manager
  writes : List String

/-- `handle_request`: resolve the session id from the `X-Session-ID`
header (else a generated uuid), get or create the worker, take its lock,
write the body plus newline, read one line.  Empty read: terminate the
worker and raise a 500 (the raised `HTTPException` is itself caught by the
outer handler, which terminates again — a no-op — and wraps the message).
A write failure: terminate and raise 500.  Otherwise answer 200 with the
re-serialized JSON value when the line parses, else the raw line. -/
def handle_request (m : Manager) (header_sid : Option String) (gen : String)
    (body : String) (now : Nat) (spawned : Proc) (wk : WorkerReply) : UnaryResult :=
  let sid := header_sid.getD gen
  let m1 := (get_or_create_process m sid now spawned).2
  let m2 := (get_process_lock m1 sid).2
  match wk with
  | .writeRaises msg =>
      { result := .error ⟨500, "Error processing request: " ++ msg⟩
        post := (terminate_process m2 sid).2
        writes := [] }
  | .readline line =>
      if line = "" then
        let m3 := (terminate_process m2 sid).2
        let m4 := (terminate_process m3 sid).2
        { result := .error ⟨500,
            "Error processing request: 500: Subprocess terminated unexpectedly"⟩
          post := m4
          writes := [body ++ "\n"] }
      else
        match json_loads line with
        | some v =>
            { result := .ok ⟨200, dumps v, some "application/json", some sid⟩
              post := m2
              writes := [body ++ "\n"] }
        | none =>
            { result := .ok ⟨200, line, none, some sid⟩
              post := m2
              writes := [body ++ "\n"] }

/-!  The stream gateway `handle_stream_request` / `response_generator`. -/

/-- One `readline` observation inside the streaming loop: a returned byte
string (empty means end-of-stream) or a raised exception. -/
inductive ReadEv where
  | rline (s : String)
  | rraise (msg : String)
deriving Repr, DecidableEq

/-- The read loop of `response_generator`: yield each nonempty line and
refresh `last_activity`; stop silently on an empty read; on an exception
terminate the session's worker and yield one final in-band
"Error: ..." chunk. -/
def gen_loop (sid : String) (now : Nat) :
    Manager → List ReadEv → List String × Manager
  | m, [] => ([], m)
  | m, .rline s :: rest =>
      if s = "" then ([], m)
      else
        let m2 := { m with last_activity := aput m.last_activity sid now }
        let p := gen_loop sid now m2 rest
        (s :: p.1, p.2)
  | m, .rraise msg :: _ => (["Error: " ++ msg], (terminate_process m sid).2)

/-- Result of one streaming request: the yielded chunks, the manager state
after the generator ran, the bytes written to the worker, and the
`StreamingResponse` metadata. -/
structure StreamResult where
  chunks : List String
  post : Manager
  writes : List String
  media_type : String
  x_session_id : String

/-- `handle_stream_request` with its `response_generator` run to
completion: resolve or create the session's worker, take its lock, write
the body plus newline (or observe the write raising), then stream the read
loop.  The HTTP response itself is always a 200 `StreamingResponse` with
the session id header; failures only appear as a final in-band chunk. -/
def handle_stream_request (m : Manager) (header_sid : Option String)
    (gen : String) (body : String) (now : Nat) (spawned : Proc)
    (wr : Option String) (reads : List ReadEv) : StreamResult :=
  let sid := header_sid.getD gen
  let m1 := (get_or_create_process m sid now spawned).2
  let m2 := (get_process_lock m1 sid).2
  match wr with
  | some msg =>
      { chunks := ["Error: " ++ msg]
        post := (terminate_process m2 sid).2
        writes := []
        media_type := "application/jsonl"
        x_session_id := sid }
  | none =>
      let p := gen_loop sid now m2 reads
      { chunks := p.1
        post := p.2
        writes := [body ++ "\n"]
        media_type := "application/jsonl"
        x_session_id := sid }

/-!  The WebSocket endpoint `websocket_endpoint`, split at its
manager-visible transitions. -/

/-- Connection open: generate a session id, get or create the worker, take
its lock.  Nothing marks the session as a duplex one in the manager. -/
def ws_connect (m : Manager) (sid : String) (now : Nat) (spawned : Proc) : Manager :=
  let m1 := (get_or_create_process m sid now spawned).2
  (get_process_lock m1 sid).2

/-- The direct `last_activity[session_id] = time.time()` writes performed
on every inbound message and every forwarded output line. -/
def ws_touch (m : Manager) (sid : String) (now : Nat) : Manager :=
  { m with last_activity := aput m.last_activity sid now }

/-- Connection close or error: terminate and remove the worker. -/
def ws_close (m : Manager) (sid : String) : Manager :=
  (terminate_process m sid).2

/-!  Arbitrary sequences of the manager's operations, for the registry
key-set invariant. -/

/-- One invocation of a `StdioSubprocessManager` method. -/
inductive MOp where
  | goc (sid : String) (now : Nat) (spawned : Proc)
  | gpl (sid : String)
  | term (sid : String)
  | cleanup (now : Nat)
  | termAll
deriving Repr, DecidableEq

/-- Apply one manager operation (return values discarded). -/
def applyMOp (m : Manager) : MOp → Manager
  | .goc sid now spawned => (get_or_create_process m sid now spawned).2
  | .gpl sid => (get_process_lock m sid).2
  | .term sid => (terminate_process m sid).2
  | .cleanup now => cleanup_idle_processes m now
  | .termAll => terminate_all m

/-- Apply a sequence of manager operations. -/
def applyMOps (ops : List MOp) (m : Manager) : Manager :=
  ops.foldl applyMOp m

/-!
An interleaving semantics for concurrent unary exchanges.  Each exchange
(thread) runs the body of `handle_request`'s critical section once:
acquire the session's lock, write the request plus newline, flush, read
one response line, release.  The program counter records progress
(0 start, 1 holding the lock, 2 after write, 3 after flush, 4 after read,
5 released); every pipe operation appends an event.  A schedule is an
arbitrary list of attempted steps; a step whose guard fails (lock busy,
wrong pc) leaves the state unchanged, so quantifying over all schedules
covers every interleaving the lock discipline admits.
-/

/-- Kind of a pipe operation in an exchange. -/
inductive EvKind where
  | writeEv
  | flushEv
  | readEv
deriving Repr, DecidableEq

/-- A pipe operation performed by exchange `tid` on session `sid`. -/
structure Ev where
  tid : Nat
  sid : String
  kind : EvKind
deriving Repr, DecidableEq

/-- Global state: per-exchange program counters, per-session lock holder,
and the trace of pipe operations (newest first). -/
structure CState where
  pc : Nat → Nat
  owner : String → Option Nat
  trace : List Ev

/-- Initial state: nothing started, all locks free. -/
def initC : CState :=
  { pc := fun _ => 0, owner := fun _ => none, trace := [] }

/-- One attempted step of an exchange. -/
inductive Op where
  | acquire
  | write
  | flush
  | readl
  | release
deriving Repr, DecidableEq

/-- A scheduled step: which exchange attempts which operation. -/
structure Act where
  tid : Nat
  op : Op
deriving Repr, DecidableEq

/-- Semantics of one attempted step under the per-session lock discipline
of `handle_request` (acquire blocks while another exchange on the same
session holds the lock; write, flush and read happen only while holding
it). -/
def cstep (sess : Nat → String) (s : CState) (a : Act) : CState :=
  match a.op with
  | .acquire =>
      if s.pc a.tid = 0 ∧ s.owner (sess a.tid) = none then
        { pc := Function.update s.pc a.tid 1
          owner := Function.update s.owner (sess a.tid) (some a.tid)
          trace := s.trace }
      else s
  | .write =>
      if s.pc a.tid = 1 then
        { pc := Function.update s.pc a.tid 2
          owner := s.owner
          trace := ⟨a.tid, sess a.tid, .writeEv⟩ :: s.trace }
      else s
  | .flush =>
      if s.pc a.tid = 2 then
        { pc := Function.update s.pc a.tid 3
          owner := s.owner
          trace := ⟨a.tid, sess a.tid, .flushEv⟩ :: s.trace }
      else s
  | .readl =>
      if s.pc a.tid = 3 then
        { pc := Function.update s.pc a.tid 4
          owner := s.owner
          trace := ⟨a.tid, sess a.tid, .readEv⟩ :: s.trace }
      else s
  | .release =>
      if s.pc a.tid = 4 then
        { pc := Function.update s.pc a.tid 5
          owner := Function.update s.owner (sess a.tid) none
          trace := s.trace }
      else s

/-- Run a schedule from the initial state. -/
def crun (sess : Nat → String) (acts : List Act) : CState :=
  acts.foldl (cstep sess) initC

/-- Every event in `l` belongs to exchange `t`. -/
def AllT (t : Nat) (l : List Ev) : Prop := ∀ e ∈ l, e.tid = t

/-- No event in `l` belongs to exchange `t`. -/
def NoT (t : Nat) (l : List Ev) : Prop := ∀ e ∈ l, e.tid ≠ t

/-- The events of exchange `t` form one contiguous block of `l`: `l`
splits into a part without `t`, a block entirely of `t`, and a part
without `t`.  Applied to a session-filtered trace this says no other
exchange's pipe operations are interleaved with `t`'s. -/
def Contig (t : Nat) (l : List Ev) : Prop :=
  ∃ a b c, l = a ++ b ++ c ∧ NoT t a ∧ AllT t b ∧ NoT t c

/-- The events of exchange `t` are exactly a prefix of `l` (newest end). -/
def HeadBlock (t : Nat) (l : List Ev) : Prop :=
  ∃ b c, l = b ++ c ∧ AllT t b ∧ NoT t c

theorem headBlock_contig {t : Nat} {l : List Ev} (h : HeadBlock t l) :
    Contig t l := by
  obtain ⟨b, c, rfl, hb, hc⟩ := h
  refine ⟨[], b, c, rfl, ?_, hb, hc⟩
  intro e he
  cases he

theorem noT_headBlock {t : Nat} {l : List Ev} (h : NoT t l) : HeadBlock t l := by
  refine ⟨[], l, rfl, ?_, h⟩
  intro e he
  cases he

theorem contig_cons_ne {t : Nat} {l : List Ev} {e : Ev} (h : Contig t l)
    (he : e.tid ≠ t) : Contig t (e :: l) := by
  obtain ⟨a, b, c, rfl, ha, hb, hc⟩ := h
  refine ⟨e :: a, b, c, rfl, ?_, hb, hc⟩
  intro x hx
  rcases List.mem_cons.mp hx with hx | hx
  · exact hx ▸ he
  · exact ha x hx

theorem headBlock_cons_eq {t : Nat} {l : List Ev} {e : Ev} (h : HeadBlock t l)
    (he : e.tid = t) : HeadBlock t (e :: l) := by
  obtain ⟨b, c, rfl, hb, hc⟩ := h
  refine ⟨e :: b, c, rfl, ?_, hc⟩
  intro x hx
  rcases List.mem_cons.mp hx with hx | hx
  · exact hx ▸ he
  · exact hb x hx

/-- Invariant tying lock ownership, program counters and the trace
together. -/
structure CInv (sess : Nat → String) (s : CState) : Prop where
  sid_ok : ∀ e ∈ s.trace, e.sid = sess e.tid
  no_ev_low : ∀ t, s.pc t ≤ 1 → ∀ e ∈ s.trace, e.tid ≠ t
  owner_pc : ∀ t, 1 ≤ s.pc t → s.pc t ≤ 4 → s.owner (sess t) = some t
  owner_sess : ∀ S t, s.owner S = some t → sess t = S ∧ 1 ≤ s.pc t ∧ s.pc t ≤ 4
  head : ∀ S t, s.owner S = some t →
    HeadBlock t (s.trace.filter (fun e => e.sid == S))
  contig : ∀ S t, Contig t (s.trace.filter (fun e => e.sid == S))

theorem cinv_init (sess : Nat → String) : CInv sess initC := by
  refine ⟨?_, ?_, ?_, ?_, ?_, ?_⟩
  · intro e he; cases he
  · intro t _ e he; cases he
  · intro t h1 _; simp [initC] at h1
  · intro S t h; simp [initC] at h
  · intro S t h; simp [initC] at h
  · intro S t
    refine ⟨[], [], [], rfl, ?_, ?_, ?_⟩ <;> intro e he <;> cases he

theorem noT_filter {t : Nat} {l : List Ev} (p : Ev → Bool) (h : NoT t l) :
    NoT t (l.filter p) := by
  intro e he
  exact h e (List.mem_filter.mp he).1

theorem filter_cons_self (t0 : Nat) (S : String) (k : EvKind) (l : List Ev) :
    (Ev.mk t0 S k :: l).filter (fun x => x.sid == S)
      = Ev.mk t0 S k :: l.filter (fun x => x.sid == S) := by
  simp [List.filter_cons]

theorem filter_cons_other (t0 : Nat) (S S2 : String) (k : EvKind)
    (l : List Ev) (h : S ≠ S2) :
    (Ev.mk t0 S k :: l).filter (fun x => x.sid == S2)
      = l.filter (fun x => x.sid == S2) := by
  simp [List.filter_cons, h]

/-- The invariant survives an event-emitting step (write, flush or read)
by exchange `t0`, which requires `pc t0 ∈ [1,3]` and hence lock
ownership. -/
theorem cinv_emit (sess : Nat → String) (s : CState) (t0 : Nat) (k : EvKind)
    (pcv : Nat) (hpc : s.pc t0 = pcv) (h1 : 1 ≤ pcv) (h3 : pcv ≤ 3)
    (inv : CInv sess s) :
    CInv sess
      { pc := Function.update s.pc t0 (pcv + 1)
        owner := s.owner
        trace := ⟨t0, sess t0, k⟩ :: s.trace } := by
  have howner : s.owner (sess t0) = some t0 :=
    inv.owner_pc t0 (by omega) (by omega)
  refine ⟨?_, ?_, ?_, ?_, ?_, ?_⟩ <;> dsimp only
  · intro e he
    rcases List.mem_cons.mp he with rfl | he
    · rfl
    · exact inv.sid_ok e he
  · intro t hpt e he
    by_cases ht : t = t0
    · subst ht
      rw [Function.update_same] at hpt
      exact absurd hpt (by omega)
    · rw [Function.update_noteq ht] at hpt
      rcases List.mem_cons.mp he with rfl | he
      · exact fun hh => ht hh.symm
      · exact inv.no_ev_low t hpt e he
  · intro t hb1 hb4
    by_cases ht : t = t0
    · subst ht
      exact howner
    · rw [Function.update_noteq ht] at hb1 hb4
      exact inv.owner_pc t hb1 hb4
  · intro S t2 hS
    obtain ⟨hss, hb1, hb4⟩ := inv.owner_sess S t2 hS
    by_cases ht : t2 = t0
    · subst ht
      refine ⟨hss, ?_, ?_⟩ <;> rw [Function.update_same] <;> omega
    · refine ⟨hss, ?_, ?_⟩ <;> rw [Function.update_noteq ht] <;> omega
  · intro S t2 hS
    by_cases hSS : S = sess t0
    · subst hSS
      rw [howner] at hS
      obtain rfl := Option.some.inj hS
      rw [filter_cons_self]
      exact headBlock_cons_eq (inv.head _ _ howner) rfl
    · rw [filter_cons_other _ _ _ _ _ (fun hh => hSS hh.symm)]
      exact inv.head S t2 hS
  · intro S t2
    by_cases hSS : S = sess t0
    · subst hSS
      rw [filter_cons_self]
      by_cases ht : t2 = t0
      · subst ht
        exact headBlock_contig (headBlock_cons_eq (inv.head _ _ howner) rfl)
      · exact contig_cons_ne (inv.contig _ t2) (fun hh => ht hh.symm)
    · rw [filter_cons_other _ _ _ _ _ (fun hh => hSS hh.symm)]
      exact inv.contig S t2

/-- The invariant survives acquiring a free session lock. -/
theorem cinv_acquire (sess : Nat → String) (s : CState) (t0 : Nat)
    (hpc : s.pc t0 = 0) (hfree : s.owner (sess t0) = none)
    (inv : CInv sess s) :
    CInv sess
      { pc := Function.update s.pc t0 1
        owner := Function.update s.owner (sess t0) (some t0)
        trace := s.trace } := by
  refine ⟨?_, ?_, ?_, ?_, ?_, ?_⟩ <;> dsimp only
  · exact inv.sid_ok
  · intro t hpt e he
    by_cases ht : t = t0
    · subst ht
      exact inv.no_ev_low _ (by omega) e he
    · rw [Function.update_noteq ht] at hpt
      exact inv.no_ev_low t hpt e he
  · intro t hb1 hb4
    by_cases ht : t = t0
    · subst ht
      rw [Function.update_same]
    · rw [Function.update_noteq ht] at hb1 hb4
      have hold := inv.owner_pc t hb1 hb4
      by_cases hss : sess t = sess t0
      · rw [hss, hfree] at hold
        cases hold
      · rw [Function.update_noteq hss]
        exact hold
  · intro S t2 hS
    by_cases hSS : S = sess t0
    · subst hSS
      rw [Function.update_same] at hS
      obtain rfl := Option.some.inj hS
      refine ⟨rfl, ?_, ?_⟩ <;> simp [Function.update_same]
    · rw [Function.update_noteq hSS] at hS
      obtain ⟨hss, hb1, hb4⟩ := inv.owner_sess S t2 hS
      have ht : t2 ≠ t0 := by
        intro hh
        subst hh
        exact hSS hss.symm
      refine ⟨hss, ?_, ?_⟩ <;> rw [Function.update_noteq ht] <;> omega
  · intro S t2 hS
    by_cases hSS : S = sess t0
    · subst hSS
      rw [Function.update_same] at hS
      obtain rfl := Option.some.inj hS
      exact noT_headBlock (noT_filter _ (inv.no_ev_low _ (by omega)))
    · rw [Function.update_noteq hSS] at hS
      exact inv.head S t2 hS
  · exact inv.contig

/-- The invariant survives releasing the lock after the read. -/
theorem cinv_release (sess : Nat → String) (s : CState) (t0 : Nat)
    (hpc : s.pc t0 = 4) (inv : CInv sess s) :
    CInv sess
      { pc := Function.update s.pc t0 5
        owner := Function.update s.owner (sess t0) none
        trace := s.trace } := by
  have howner : s.owner (sess t0) = some t0 :=
    inv.owner_pc t0 (by omega) (by omega)
  refine ⟨?_, ?_, ?_, ?_, ?_, ?_⟩ <;> dsimp only
  · exact inv.sid_ok
  · intro t hpt e he
    by_cases ht : t = t0
    · subst ht
      rw [Function.update_same] at hpt
      exact absurd hpt (by omega)
    · rw [Function.update_noteq ht] at hpt
      exact inv.no_ev_low t hpt e he
  · intro t hb1 hb4
    by_cases ht : t = t0
    · subst ht
      rw [Function.update_same] at hb1 hb4
      omega
    · rw [Function.update_noteq ht] at hb1 hb4
      have hold := inv.owner_pc t hb1 hb4
      by_cases hss : sess t = sess t0
      · rw [hss, howner] at hold
        obtain rfl := Option.some.inj hold
        exact absurd rfl ht
      · rw [Function.update_noteq hss]
        exact hold
  · intro S t2 hS
    by_cases hSS : S = sess t0
    · subst hSS
      rw [Function.update_same] at hS
      cases hS
    · rw [Function.update_noteq hSS] at hS
      obtain ⟨hss, hb1, hb4⟩ := inv.owner_sess S t2 hS
      have ht : t2 ≠ t0 := by
        intro hh
        subst hh
        exact hSS hss.symm
      refine ⟨hss, ?_, ?_⟩ <;> rw [Function.update_noteq ht] <;> omega
  · intro S t2 hS
    by_cases hSS : S = sess t0
    · subst hSS
      rw [Function.update_same] at hS
      cases hS
    · rw [Function.update_noteq hSS] at hS
      exact inv.head S t2 hS
  · exact inv.contig

theorem cinv_step (sess : Nat → String) (s : CState) (a : Act)
    (inv : CInv sess s) : CInv sess (cstep sess s a) := by
  obtain ⟨t0, op⟩ := a
  cases op with
  | acquire =>
      by_cases hg : s.pc t0 = 0 ∧ s.owner (sess t0) = none
      · rw [show cstep sess s ⟨t0, .acquire⟩
              = { pc := Function.update s.pc t0 1
                  owner := Function.update s.owner (sess t0) (some t0)
                  trace := s.trace } from by simp [cstep, hg]]
        exact cinv_acquire sess s t0 hg.1 hg.2 inv
      · rw [show cstep sess s ⟨t0, .acquire⟩ = s from by simp [cstep, hg]]
        exact inv
  | write =>
      by_cases hg : s.pc t0 = 1
      · rw [show cstep sess s ⟨t0, .write⟩
              = { pc := Function.update s.pc t0 2
                  owner := s.owner
                  trace := ⟨t0, sess t0, .writeEv⟩ :: s.trace } from by
            simp [cstep, hg]]
        exact cinv_emit sess s t0 .writeEv 1 hg (by omega) (by omega) inv
      · rw [show cstep sess s ⟨t0, .write⟩ = s from by simp [cstep, hg]]
        exact inv
  | flush =>
      by_cases hg : s.pc t0 = 2
      · rw [show cstep sess s ⟨t0, .flush⟩
              = { pc := Function.update s.pc t0 3
                  owner := s.owner
                  trace := ⟨t0, sess t0, .flushEv⟩ :: s.trace } from by
            simp [cstep, hg]]
        exact cinv_emit sess s t0 .flushEv 2 hg (by omega) (by omega) inv
      · rw [show cstep sess s ⟨t0, .flush⟩ = s from by simp [cstep, hg]]
        exact inv
  | readl =>
      by_cases hg : s.pc t0 = 3
      · rw [show cstep sess s ⟨t0, .readl⟩
              = { pc := Function.update s.pc t0 4
                  owner := s.owner
                  trace := ⟨t0, sess t0, .readEv⟩ :: s.trace } from by
            simp [cstep, hg]]
        exact cinv_emit sess s t0 .readEv 3 hg (by omega) (by omega) inv
      · rw [show cstep sess s ⟨t0, .readl⟩ = s from by simp [cstep, hg]]
        exact inv
  | release =>
      by_cases hg : s.pc t0 = 4
      · rw [show cstep sess s ⟨t0, .release⟩
              = { pc := Function.update s.pc t0 5
                  owner := Function.update s.owner (sess t0) none
                  trace := s.trace } from by simp [cstep, hg]]
        exact cinv_release sess s t0 hg inv
      · rw [show cstep sess s ⟨t0, .release⟩ = s from by simp [cstep, hg]]
        exact inv

/-- The invariant holds after running any schedule. -/
theorem cinv_run (sess : Nat → String) (acts : List Act) :
    CInv sess (crun sess acts) := by
  have main : ∀ (l : List Act) (s : CState), CInv sess s →
      CInv sess (l.foldl (cstep sess) s) := by
    intro l
    induction l with
    | nil => intro s hs; exact hs
    | cons a rest ih =>
        intro s hs
        exact ih (cstep sess s a) (cinv_step sess s a hs)
  exact main acts initC (cinv_init sess)

/-!  Basic facts about the manager operations. -/

theorem alook_mem {α : Type} (l : AList α) (k : String) (v : α)
    (h : alook l k = some v) : (k, v) ∈ l := by
  induction l with
  | nil => cases h
  | cons p rest ih =>
      obtain ⟨k1, v1⟩ := p
      by_cases hk : k1 = k
      · subst hk
        simp [alook] at h
        subst h
        exact List.mem_cons_self _ _
      · simp [alook, hk] at h
        exact List.mem_cons_of_mem _ (ih h)

theorem mem_alook_nodup {α : Type} (l : AList α) (k : String) (v : α)
    (hnd : (l.map Prod.fst).Nodup) (h : (k, v) ∈ l) : alook l k = some v := by
  induction l with
  | nil => cases h
  | cons p rest ih =>
      obtain ⟨k1, v1⟩ := p
      simp only [List.map_cons, List.nodup_cons] at hnd
      rcases List.mem_cons.mp h with heq | hmem
      · obtain ⟨rfl, rfl⟩ := Prod.mk.injEq .. ▸ heq
        injection heq with h1 h2
        simp [alook]
      · have hk : k1 ≠ k := by
          intro hh
          subst hh
          exact hnd.1 (List.mem_map.mpr ⟨(k1, v), hmem, rfl⟩)
        simp [alook, hk]
        exact ih hnd.2 hmem

theorem goc_some (m : Manager) (sid : String) (now : Nat) (spawned p : Proc)
    (h : alook m.processes sid = some p) :
    get_or_create_process m sid now spawned
      = (p, { m with last_activity := aput m.last_activity sid now }) := by
  unfold get_or_create_process
  rw [h]

theorem goc_none (m : Manager) (sid : String) (now : Nat) (spawned : Proc)
    (h : alook m.processes sid = none) :
    get_or_create_process m sid now spawned
      = (spawned,
          { m with
              processes := aput m.processes sid spawned
              process_locks := aput m.process_locks sid 0
              last_activity := aput m.last_activity sid now }) := by
  unfold get_or_create_process
  rw [h]

theorem goc_registers (m : Manager) (sid : String) (now : Nat) (spawned : Proc) :
    ∃ q, alook (get_or_create_process m sid now spawned).2.processes sid = some q := by
  cases h : alook m.processes sid with
  | some p =>
      refine ⟨p, ?_⟩
      rw [goc_some m sid now spawned p h]
      exact h
  | none =>
      refine ⟨spawned, ?_⟩
      rw [goc_none m sid now spawned h]
      exact alook_aput_self _ _ _

theorem goc_last_activity (m : Manager) (sid : String) (now : Nat) (spawned : Proc) :
    (get_or_create_process m sid now spawned).2.last_activity
      = aput m.last_activity sid now := by
  cases h : alook m.processes sid with
  | some p => rw [goc_some m sid now spawned p h]
  | none => rw [goc_none m sid now spawned h]

theorem gpl_processes (m : Manager) (sid : String) :
    (get_process_lock m sid).2.processes = m.processes := by
  unfold get_process_lock
  cases h : alook m.process_locks sid <;> rfl

theorem gpl_last_activity (m : Manager) (sid : String) :
    (get_process_lock m sid).2.last_activity = m.last_activity := by
  unfold get_process_lock
  cases h : alook m.process_locks sid <;> rfl

theorem terminate_some (m : Manager) (sid : String) (p : Proc)
    (h : alook m.processes sid = some p) :
    terminate_process m sid
      = (if p.termRaises then .raisedAbsorbed
         else if p.exitsWithinGrace then .graceful else .forcedKill,
         { m with
             processes := adel m.processes sid
             process_locks := adel m.process_locks sid
             last_activity := adel m.last_activity sid }) := by
  unfold terminate_process
  rw [h]

theorem terminate_none (m : Manager) (sid : String)
    (h : alook m.processes sid = none) :
    terminate_process m sid = (.noProcess, m) := by
  unfold terminate_process
  rw [h]

theorem terminate_lookup_processes (m : Manager) (sid : String) :
    alook (terminate_process m sid).2.processes sid = none := by
  cases h : alook m.processes sid with
  | none =>
      rw [terminate_none m sid h]
      exact h
  | some p =>
      rw [terminate_some m sid p h]
      exact alook_adel_self _ _

theorem terminate_idle_timeout (m : Manager) (sid : String) :
    (terminate_process m sid).2.idle_timeout = m.idle_timeout := by
  cases h : alook m.processes sid with
  | none => rw [terminate_none m sid h]
  | some p => rw [terminate_some m sid p h]

theorem terminate_other (m : Manager) (sid sid2 : String) (h : sid ≠ sid2) :
    alook (terminate_process m sid).2.processes sid2 = alook m.processes sid2 ∧
    alook (terminate_process m sid).2.process_locks sid2 = alook m.process_locks sid2 ∧
    alook (terminate_process m sid).2.last_activity sid2 = alook m.last_activity sid2 := by
  cases hh : alook m.processes sid with
  | none =>
      rw [terminate_none m sid hh]
      exact ⟨rfl, rfl, rfl⟩
  | some p =>
      rw [terminate_some m sid p hh]
      exact ⟨alook_adel_ne _ _ _ h, alook_adel_ne _ _ _ h, alook_adel_ne _ _ _ h⟩

theorem terminate_processes_none (m : Manager) (sid sid2 : String)
    (h : alook m.processes sid2 = none) :
    alook (terminate_process m sid).2.processes sid2 = none := by
  by_cases he : sid = sid2
  · subst he
    exact terminate_lookup_processes m sid
  · rw [(terminate_other m sid sid2 he).1]
    exact h

theorem terminate_locks_none (m : Manager) (sid sid2 : String)
    (h : alook m.process_locks sid2 = none) :
    alook (terminate_process m sid).2.process_locks sid2 = none := by
  cases hh : alook m.processes sid with
  | none =>
      rw [terminate_none m sid hh]
      exact h
  | some p =>
      rw [terminate_some m sid p hh]
      by_cases he : sid = sid2
      · subst he
        exact alook_adel_self _ _
      · rw [alook_adel_ne _ _ _ he]
        exact h

theorem terminate_la_none (m : Manager) (sid sid2 : String)
    (h : alook m.last_activity sid2 = none) :
    alook (terminate_process m sid).2.last_activity sid2 = none := by
  cases hh : alook m.processes sid with
  | none =>
      rw [terminate_none m sid hh]
      exact h
  | some p =>
      rw [terminate_some m sid p hh]
      by_cases he : sid = sid2
      · subst he
        exact alook_adel_self _ _
      · rw [alook_adel_ne _ _ _ he]
        exact h

/-!  The idle-reaper fold. -/

/-- The body folded by `cleanup_idle_processes`. -/
def cleanupStep (now : Nat) (acc : Manager) (kv : String × Nat) : Manager :=
  if now - kv.2 > acc.idle_timeout then (terminate_process acc kv.1).2 else acc

theorem cleanup_as_fold (m : Manager) (now : Nat) :
    cleanup_idle_processes m now = m.last_activity.foldl (cleanupStep now) m := rfl

theorem cleanupStep_idle_timeout (now : Nat) (acc : Manager) (kv : String × Nat) :
    (cleanupStep now acc kv).idle_timeout = acc.idle_timeout := by
  unfold cleanupStep
  split
  · exact terminate_idle_timeout _ _
  · rfl

theorem cleanup_fold_none (now : Nat) (items : List (String × Nat)) :
    ∀ (acc : Manager) (sid : String),
      alook acc.processes sid = none →
      alook acc.process_locks sid = none →
      alook acc.last_activity sid = none →
      alook (items.foldl (cleanupStep now) acc).processes sid = none ∧
      alook (items.foldl (cleanupStep now) acc).process_locks sid = none ∧
      alook (items.foldl (cleanupStep now) acc).last_activity sid = none := by
  induction items with
  | nil => exact fun acc sid h1 h2 h3 => ⟨h1, h2, h3⟩
  | cons kv rest ih =>
      intro acc sid h1 h2 h3
      simp only [List.foldl_cons]
      unfold cleanupStep
      split
      · exact ih _ sid (terminate_processes_none _ _ _ h1)
          (terminate_locks_none _ _ _ h2) (terminate_la_none _ _ _ h3)
      · exact ih _ sid h1 h2 h3

theorem cleanup_fold_untouched (now T : Nat) (items : List (String × Nat)) :
    ∀ (acc : Manager) (sid : String),
      acc.idle_timeout = T →
      (∀ la2, (sid, la2) ∈ items → ¬ now - la2 > T) →
      alook (items.foldl (cleanupStep now) acc).processes sid
          = alook acc.processes sid ∧
      alook (items.foldl (cleanupStep now) acc).process_locks sid
          = alook acc.process_locks sid ∧
      alook (items.foldl (cleanupStep now) acc).last_activity sid
          = alook acc.last_activity sid := by
  induction items with
  | nil => exact fun acc sid _ _ => ⟨rfl, rfl, rfl⟩
  | cons kv rest ih =>
      intro acc sid hT hfresh
      obtain ⟨k1, la1⟩ := kv
      simp only [List.foldl_cons]
      by_cases hk : k1 = sid
      · subst hk
        have hnot : ¬ now - la1 > T := hfresh la1 (List.mem_cons_self _ _)
        rw [show cleanupStep now acc (k1, la1) = acc from by
          unfold cleanupStep
          rw [hT]
          exact if_neg hnot]
        exact ih acc k1 hT (fun la2 hmem => hfresh la2 (List.mem_cons_of_mem _ hmem))
      · have hstep := ih (cleanupStep now acc (k1, la1)) sid
          (by rw [cleanupStep_idle_timeout, hT])
          (fun la2 hmem => hfresh la2 (List.mem_cons_of_mem _ hmem))
        have hsame :
            alook (cleanupStep now acc (k1, la1)).processes sid
                = alook acc.processes sid ∧
            alook (cleanupStep now acc (k1, la1)).process_locks sid
                = alook acc.process_locks sid ∧
            alook (cleanupStep now acc (k1, la1)).last_activity sid
                = alook acc.last_activity sid := by
          unfold cleanupStep
          split
          · exact terminate_other acc k1 sid hk
          · exact ⟨rfl, rfl, rfl⟩
        exact ⟨hstep.1.trans hsame.1, hstep.2.1.trans hsame.2.1,
          hstep.2.2.trans hsame.2.2⟩

theorem cleanup_fold_expired (now T : Nat) (items : List (String × Nat)) :
    ∀ (acc : Manager) (sid : String) (la : Nat) (p : Proc),
      acc.idle_timeout = T →
      (items.map Prod.fst).Nodup →
      (sid, la) ∈ items →
      now - la > T →
      alook acc.processes sid = some p →
      alook (items.foldl (cleanupStep now) acc).processes sid = none ∧
      alook (items.foldl (cleanupStep now) acc).process_locks sid = none ∧
      alook (items.foldl (cleanupStep now) acc).last_activity sid = none := by
  induction items with
  | nil => intro acc sid la p _ _ hmem; cases hmem
  | cons kv rest ih =>
      intro acc sid la p hT hnd hmem hexp hproc
      obtain ⟨k1, la1⟩ := kv
      simp only [List.map_cons, List.nodup_cons] at hnd
      simp only [List.foldl_cons]
      rcases List.mem_cons.mp hmem with heq | hmem2
      · injection heq with hk hla
        subst hk
        subst hla
        rw [show cleanupStep now acc (sid, la) = (terminate_process acc sid).2 from by
          unfold cleanupStep
          rw [hT]
          exact if_pos hexp]
        rw [terminate_some acc sid p hproc]
        exact cleanup_fold_none now rest _ sid (alook_adel_self _ _)
          (alook_adel_self _ _) (alook_adel_self _ _)
      · have hk : k1 ≠ sid := by
          intro hh
          subst hh
          exact hnd.1 (List.mem_map.mpr ⟨(k1, la), hmem2, rfl⟩)
        have hTstep : (cleanupStep now acc (k1, la1)).idle_timeout = T := by
          rw [cleanupStep_idle_timeout, hT]
        have hproc2 : alook (cleanupStep now acc (k1, la1)).processes sid = some p := by
          unfold cleanupStep
          split
          · rw [(terminate_other acc k1 sid hk).1]
            exact hproc
          · exact hproc
        exact ih _ sid la p hTstep hnd.2 hmem2 hexp hproc2

/-!  The registry key-set invariant over arbitrary operation sequences. -/

/-- Key-set relation maintained by the manager's operations: the process
map and the last-activity map have identical key sets, and every key of
the process map also has a lock (the lock map may hold extra entries,
created by `get_process_lock` on unregistered ids). -/
def InSync (m : Manager) : Prop :=
  (∀ sid, (alook m.processes sid).isSome ↔ (alook m.last_activity sid).isSome) ∧
  (∀ sid, (alook m.processes sid).isSome → (alook m.process_locks sid).isSome)

theorem insync_terminate (m : Manager) (sid : String) (h : InSync m) :
    InSync (terminate_process m sid).2 := by
  cases hh : alook m.processes sid with
  | none =>
      rw [terminate_none m sid hh]
      exact h
  | some p =>
      rw [terminate_some m sid p hh]
      constructor
      · intro sid2
        by_cases he : sid = sid2
        · subst he
          simp [alook_adel_self]
        · rw [show alook (adel m.processes sid) sid2 = alook m.processes sid2 from
              alook_adel_ne _ _ _ he,
            show alook (adel m.last_activity sid) sid2 = alook m.last_activity sid2 from
              alook_adel_ne _ _ _ he]
          exact h.1 sid2
      · intro sid2
        by_cases he : sid = sid2
        · subst he
          simp [alook_adel_self]
        · rw [show alook (adel m.processes sid) sid2 = alook m.processes sid2 from
              alook_adel_ne _ _ _ he,
            show alook (adel m.process_locks sid) sid2 = alook m.process_locks sid2 from
              alook_adel_ne _ _ _ he]
          exact h.2 sid2

theorem insync_goc (m : Manager) (sid : String) (now : Nat) (spawned : Proc)
    (h : InSync m) : InSync (get_or_create_process m sid now spawned).2 := by
  cases hh : alook m.processes sid with
  | some p =>
      rw [goc_some m sid now spawned p hh]
      constructor
      · intro sid2
        by_cases he : sid = sid2
        · subst he
          simp [hh, alook_aput_self]
        · rw [show alook (aput m.last_activity sid now) sid2 = alook m.last_activity sid2 from
              alook_aput_ne _ _ _ _ he]
          exact h.1 sid2
      · exact h.2
  | none =>
      rw [goc_none m sid now spawned hh]
      constructor
      · intro sid2
        by_cases he : sid = sid2
        · subst he
          simp [alook_aput_self]
        · rw [show alook (aput m.processes sid spawned) sid2 = alook m.processes sid2 from
              alook_aput_ne _ _ _ _ he,
            show alook (aput m.last_activity sid now) sid2 = alook m.last_activity sid2 from
              alook_aput_ne _ _ _ _ he]
          exact h.1 sid2
      · intro sid2
        by_cases he : sid = sid2
        · subst he
          simp [alook_aput_self]
        · rw [show alook (aput m.processes sid spawned) sid2 = alook m.processes sid2 from
              alook_aput_ne _ _ _ _ he,
            show alook (aput m.process_locks sid 0) sid2 = alook m.process_locks sid2 from
              alook_aput_ne _ _ _ _ he]
          exact h.2 sid2

theorem insync_gpl (m : Manager) (sid : String) (h : InSync m) :
    InSync (get_process_lock m sid).2 := by
  unfold get_process_lock
  cases hh : alook m.process_locks sid with
  | some l => exact h
  | none =>
      refine ⟨h.1, ?_⟩
      intro sid2 hp
      by_cases he : sid = sid2
      · subst he
        simp [alook_aput_self]
      · rw [show alook (aput m.process_locks sid 0) sid2 = alook m.process_locks sid2 from
            alook_aput_ne _ _ _ _ he]
        exact h.2 sid2 hp

theorem insync_fold_terminate (keys : List String) :
    ∀ (m : Manager), InSync m →
      InSync (keys.foldl (fun acc sid => (terminate_process acc sid).2) m) := by
  induction keys with
  | nil => exact fun m h => h
  | cons k rest ih =>
      intro m h
      exact ih _ (insync_terminate m k h)

theorem insync_cleanup_fold (now : Nat) (items : List (String × Nat)) :
    ∀ (m : Manager), InSync m → InSync (items.foldl (cleanupStep now) m) := by
  induction items with
  | nil => exact fun m h => h
  | cons kv rest ih =>
      intro m h
      refine ih _ ?_
      unfold cleanupStep
      split
      · exact insync_terminate _ _ h
      · exact h

theorem insync_applyMOp (m : Manager) (op : MOp) (h : InSync m) :
    InSync (applyMOp m op) := by
  cases op with
  | goc sid now spawned => exact insync_goc m sid now spawned h
  | gpl sid => exact insync_gpl m sid h
  | term sid => exact insync_terminate m sid h
  | cleanup now => exact insync_cleanup_fold now m.last_activity m h
  | termAll => exact insync_fold_terminate _ m h

/-!  The manager state as each gateway sees it after resolving a session:
`get_or_create_process` followed by `get_process_lock`. -/

/-- The manager after a gateway resolved session `sid`. -/
def resolved (m : Manager) (sid : String) (now : Nat) (spawned : Proc) : Manager :=
  (get_process_lock (get_or_create_process m sid now spawned).2 sid).2

theorem resolved_registered (m : Manager) (sid : String) (now : Nat) (sp : Proc) :
    ∃ q, alook (resolved m sid now sp).processes sid = some q := by
  unfold resolved
  rw [gpl_processes]
  exact goc_registers m sid now sp

theorem resolved_la (m : Manager) (sid : String) (now : Nat) (sp : Proc) :
    (resolved m sid now sp).last_activity = aput m.last_activity sid now := by
  unfold resolved
  rw [gpl_last_activity, goc_last_activity]

theorem handle_request_writeRaises (m : Manager) (hs : Option String)
    (gen body : String) (now : Nat) (sp : Proc) (msg : String) :
    handle_request m hs gen body now sp (.writeRaises msg)
      = { result := .error ⟨500, "Error processing request: " ++ msg⟩
          post := (terminate_process (resolved m (hs.getD gen) now sp) (hs.getD gen)).2
          writes := [] } := rfl

theorem handle_request_eof (m : Manager) (hs : Option String)
    (gen body : String) (now : Nat) (sp : Proc) :
    handle_request m hs gen body now sp (.readline "")
      = { result := .error ⟨500,
            "Error processing request: 500: Subprocess terminated unexpectedly"⟩
          post := (terminate_process
              (terminate_process (resolved m (hs.getD gen) now sp) (hs.getD gen)).2
              (hs.getD gen)).2
          writes := [body ++ "\n"] } := rfl

theorem handle_request_line (m : Manager) (hs : Option String)
    (gen body : String) (now : Nat) (sp : Proc) (line : String)
    (hne : line ≠ "") :
    handle_request m hs gen body now sp (.readline line)
      = { result := .ok
            { status := 200
              content := match json_loads line with
                         | some v => dumps v
                         | none => line
              media_type := match json_loads line with
                            | some _ => some "application/json"
                            | none => none
              x_session_id := some (hs.getD gen) }
          post := resolved m (hs.getD gen) now sp
          writes := [body ++ "\n"] } := by
  unfold handle_request
  dsimp only
  rw [if_neg hne]
  cases hjl : json_loads line <;> rfl

theorem handle_stream_writeRaises (m : Manager) (hs : Option String)
    (gen body : String) (now : Nat) (sp : Proc) (msg : String)
    (reads : List ReadEv) :
    handle_stream_request m hs gen body now sp (some msg) reads
      = { chunks := ["Error: " ++ msg]
          post := (terminate_process (resolved m (hs.getD gen) now sp) (hs.getD gen)).2
          writes := []
          media_type := "application/jsonl"
          x_session_id := hs.getD gen } := rfl

theorem handle_stream_ok (m : Manager) (hs : Option String)
    (gen body : String) (now : Nat) (sp : Proc) (reads : List ReadEv) :
    handle_stream_request m hs gen body now sp none reads
      = { chunks := (gen_loop (hs.getD gen) now (resolved m (hs.getD gen) now sp) reads).1
          post := (gen_loop (hs.getD gen) now (resolved m (hs.getD gen) now sp) reads).2
          writes := [body ++ "\n"]
          media_type := "application/jsonl"
          x_session_id := hs.getD gen } := rfl

/-!  The streaming read loop. -/

theorem gen_loop_cons (sid : String) (now : Nat) (m : Manager) (s : String)
    (rest : List ReadEv) (hs : s ≠ "") :
    gen_loop sid now m (.rline s :: rest)
      = (s :: (gen_loop sid now
            { m with last_activity := aput m.last_activity sid now } rest).1,
         (gen_loop sid now
            { m with last_activity := aput m.last_activity sid now } rest).2) := by
  simp only [gen_loop]
  rw [if_neg hs]

theorem gen_loop_raise (sid : String) (now : Nat) (msg : String) :
    ∀ (ls : List String) (m : Manager), (∀ s ∈ ls, s ≠ "") →
      (gen_loop sid now m (ls.map ReadEv.rline ++ [ReadEv.rraise msg])).1
          = ls ++ ["Error: " ++ msg] ∧
      alook (gen_loop sid now m
          (ls.map ReadEv.rline ++ [ReadEv.rraise msg])).2.processes sid = none := by
  intro ls
  induction ls with
  | nil =>
      intro m _
      exact ⟨rfl, terminate_lookup_processes m sid⟩
  | cons s rest ih =>
      intro m hne
      have hs : s ≠ "" := hne s (List.mem_cons_self _ _)
      have hrest : ∀ x ∈ rest, x ≠ "" := fun x hx => hne x (List.mem_cons_of_mem _ hx)
      have ih2 := ih { m with last_activity := aput m.last_activity sid now } hrest
      simp only [List.map_cons, List.cons_append]
      rw [gen_loop_cons sid now m s _ hs]
      exact ⟨by rw [ih2.1], ih2.2⟩

theorem gen_loop_eof (sid : String) (now : Nat) :
    ∀ (ls : List String) (m : Manager), (∀ s ∈ ls, s ≠ "") →
      (gen_loop sid now m (ls.map ReadEv.rline ++ [ReadEv.rline ""])).1 = ls ∧
      (gen_loop sid now m (ls.map ReadEv.rline ++ [ReadEv.rline ""])).2.processes
          = m.processes := by
  intro ls
  induction ls with
  | nil =>
      intro m _
      exact ⟨rfl, rfl⟩
  | cons s rest ih =>
      intro m hne
      have hs : s ≠ "" := hne s (List.mem_cons_self _ _)
      have hrest : ∀ x ∈ rest, x ≠ "" := fun x hx => hne x (List.mem_cons_of_mem _ hx)
      have ih2 := ih { m with last_activity := aput m.last_activity sid now } hrest
      simp only [List.map_cons, List.cons_append]
      rw [gen_loop_cons sid now m s _ hs]
      exact ⟨by rw [ih2.1], ih2.2⟩

/-!  The claims. -/

/-- C1: for every fixed session id, exchanges against that session's
worker are strictly serialized — the write, flush and read of each
exchange happen under the session's per-process lock, so over every
schedule of concurrently attempted exchanges, the session-filtered trace
of pipe operations contains each exchange's operations as one contiguous
block (no two exchanges for the same session id ever interleave their
writes or reads), and every pipe operation is on its own session's
worker. -/
theorem excel_c1_serialization (sess : Nat → String) (acts : List Act)
    (S : String) (t : Nat) :
    Contig t ((crun sess acts).trace.filter (fun e => e.sid == S)) ∧
      ∀ e ∈ (crun sess acts).trace, e.sid = sess e.tid :=
  ⟨(cinv_run sess acts).contig S t, (cinv_run sess acts).sid_ok⟩

/-- C2 as stated fails on the code: a worker created by the WebSocket
endpoint at time 0, with no traffic, is removed by the idle-cleanup scan
at time 301 even though no connection close or error happened —
`cleanup_idle_processes` draws no distinction for duplex sessions. -/
theorem excel_c2_counterexample :
    alook (ws_connect Manager.init "s" 0 (Proc.mk 1 true false)).processes "s"
        = some (Proc.mk 1 true false) ∧
    alook (cleanup_idle_processes
        (ws_connect Manager.init "s" 0 (Proc.mk 1 true false)) 301).processes "s"
        = none := by
  exact ⟨rfl, rfl⟩

/-- C2 amended: a duplex session's worker is terminated and removed when
the connection closes or errors, but while the connection is open the idle
reaper treats it like any other session — the scan removes its worker
exactly when the idle time since connection-open activity exceeds the
timeout. -/
theorem excel_c2_amended (sid : String) (t0 now : Nat) (p : Proc) :
    (now - t0 > 300 →
      alook (cleanup_idle_processes
          (ws_connect Manager.init sid t0 p) now).processes sid = none) ∧
    (¬ now - t0 > 300 →
      alook (cleanup_idle_processes
          (ws_connect Manager.init sid t0 p) now).processes sid = some p) ∧
    alook (ws_close (ws_connect Manager.init sid t0 p) sid).processes sid = none := by
  have hconn : ws_connect Manager.init sid t0 p
      = { processes := [(sid, p)], process_locks := [(sid, 0)],
          last_activity := [(sid, t0)], idle_timeout := 300 } := by
    unfold ws_connect
    rw [show get_or_create_process Manager.init sid t0 p
          = (p, { processes := [(sid, p)], process_locks := [(sid, 0)],
                  last_activity := [(sid, t0)], idle_timeout := 300 }) from
        goc_none Manager.init sid t0 p rfl]
    unfold get_process_lock
    simp [alook]
  refine ⟨?_, ?_, ?_⟩
  · intro hexp
    rw [hconn, cleanup_as_fold]
    simp only [List.foldl_cons, List.foldl_nil]
    rw [show cleanupStep now
          { processes := [(sid, p)], process_locks := [(sid, 0)],
            last_activity := [(sid, t0)], idle_timeout := 300 } (sid, t0)
        = (terminate_process
            { processes := [(sid, p)], process_locks := [(sid, 0)],
              last_activity := [(sid, t0)], idle_timeout := 300 } sid).2 from by
      unfold cleanupStep
      exact if_pos hexp]
    exact terminate_lookup_processes _ _
  · intro hfresh
    rw [hconn, cleanup_as_fold]
    simp only [List.foldl_cons, List.foldl_nil]
    rw [show cleanupStep now
          { processes := [(sid, p)], process_locks := [(sid, 0)],
            last_activity := [(sid, t0)], idle_timeout := 300 } (sid, t0)
        = { processes := [(sid, p)], process_locks := [(sid, 0)],
            last_activity := [(sid, t0)], idle_timeout := 300 } from by
      unfold cleanupStep
      exact if_neg hfresh]
    simp [alook]
  · rw [hconn]
    exact terminate_lookup_processes _ _

theorem excel_c2_amended_witness :
    alook (cleanup_idle_processes
        (ws_connect Manager.init "s" 0 (Proc.mk 2 true false)) 301).processes "s"
        = none ∧
    alook (cleanup_idle_processes
        (ws_connect Manager.init "s" 0 (Proc.mk 2 true false)) 100).processes "s"
        = some (Proc.mk 2 true false) ∧
    alook (ws_close (ws_connect Manager.init "s" 0 (Proc.mk 2 true false)) "s").processes "s"
        = none :=
  ⟨(excel_c2_amended "s" 0 301 (Proc.mk 2 true false)).1 (by decide),
   (excel_c2_amended "s" 0 100 (Proc.mk 2 true false)).2.1 (by decide),
   (excel_c2_amended "s" 0 100 (Proc.mk 2 true false)).2.2⟩

/-- C3: when a unary exchange fails (empty read, or the write raises), the
handler terminates and removes the session's worker from all three
registries, answers a 500 server error, performs at most the single write
of the one attempted exchange (no internal retry), and the session id
stays usable: the next resolve provisions a fresh worker. -/
theorem excel_c3_failure (m : Manager) (hs : Option String) (gen body : String)
    (now : Nat) (sp : Proc) (wk : WorkerReply)
    (hfail : wk = WorkerReply.readline "" ∨ ∃ msg, wk = WorkerReply.writeRaises msg) :
    (∃ err, (handle_request m hs gen body now sp wk).result = Except.error err ∧
      err.status = 500) ∧
    alook (handle_request m hs gen body now sp wk).post.processes (hs.getD gen) = none ∧
    alook (handle_request m hs gen body now sp wk).post.process_locks (hs.getD gen) = none ∧
    alook (handle_request m hs gen body now sp wk).post.last_activity (hs.getD gen) = none ∧
    (handle_request m hs gen body now sp wk).writes.length ≤ 1 ∧
    (∀ now2 p2, (get_or_create_process
        (handle_request m hs gen body now sp wk).post (hs.getD gen) now2 p2).1 = p2) := by
  obtain ⟨q, hq⟩ := resolved_registered m (hs.getD gen) now sp
  have hterm := terminate_some (resolved m (hs.getD gen) now sp) (hs.getD gen) q hq
  have hpost :
      alook (terminate_process (resolved m (hs.getD gen) now sp) (hs.getD gen)).2.processes
          (hs.getD gen) = none ∧
      alook (terminate_process (resolved m (hs.getD gen) now sp) (hs.getD gen)).2.process_locks
          (hs.getD gen) = none ∧
      alook (terminate_process (resolved m (hs.getD gen) now sp) (hs.getD gen)).2.last_activity
          (hs.getD gen) = none := by
    rw [hterm]
    exact ⟨alook_adel_self _ _, alook_adel_self _ _, alook_adel_self _ _⟩
  rcases hfail with rfl | ⟨msg, rfl⟩
  · rw [handle_request_eof]
    rw [terminate_none _ _ hpost.1]
    refine ⟨⟨_, rfl, rfl⟩, hpost.1, hpost.2.1, hpost.2.2, by simp, ?_⟩
    intro now2 p2
    rw [goc_none _ _ _ _ hpost.1]
  · rw [handle_request_writeRaises]
    refine ⟨⟨_, rfl, rfl⟩, hpost.1, hpost.2.1, hpost.2.2, by simp, ?_⟩
    intro now2 p2
    rw [goc_none _ _ _ _ hpost.1]

theorem excel_c3_failure_witness :
    (∃ err, (handle_request Manager.init (some "s") "g" "req" 7 (Proc.mk 1 true false)
        (WorkerReply.readline "")).result = Except.error err ∧ err.status = 500) ∧
    alook (handle_request Manager.init (some "s") "g" "req" 7 (Proc.mk 1 true false)
        (WorkerReply.readline "")).post.processes "s" = none ∧
    alook (handle_request Manager.init (some "s") "g" "req" 7 (Proc.mk 1 true false)
        (WorkerReply.readline "")).post.process_locks "s" = none ∧
    alook (handle_request Manager.init (some "s") "g" "req" 7 (Proc.mk 1 true false)
        (WorkerReply.readline "")).post.last_activity "s" = none ∧
    (handle_request Manager.init (some "s") "g" "req" 7 (Proc.mk 1 true false)
        (WorkerReply.readline "")).writes.length ≤ 1 ∧
    (∀ now2 p2, (get_or_create_process
        (handle_request Manager.init (some "s") "g" "req" 7 (Proc.mk 1 true false)
          (WorkerReply.readline "")).post "s" now2 p2).1 = p2) :=
  excel_c3_failure Manager.init (some "s") "g" "req" 7 (Proc.mk 1 true false)
    (WorkerReply.readline "") (Or.inl rfl)

/-- C4: resolving a session returns the registered worker unchanged when
one exists (no spawn: the process and lock maps are untouched), registers
the spawned worker with a fresh lock and timestamp when none exists
(leaving other sessions alone), and after a removal the next resolve for
the same id yields the newly spawned worker. -/
theorem excel_c4_resolve (m : Manager) (sid : String) (now : Nat) (spawned : Proc) :
    (∀ p, alook m.processes sid = some p →
      (get_or_create_process m sid now spawned).1 = p ∧
      (get_or_create_process m sid now spawned).2.processes = m.processes ∧
      (get_or_create_process m sid now spawned).2.process_locks = m.process_locks) ∧
    (alook m.processes sid = none →
      (get_or_create_process m sid now spawned).1 = spawned ∧
      alook (get_or_create_process m sid now spawned).2.processes sid = some spawned ∧
      alook (get_or_create_process m sid now spawned).2.process_locks sid = some 0 ∧
      alook (get_or_create_process m sid now spawned).2.last_activity sid = some now ∧
      (∀ sid2, sid ≠ sid2 →
        alook (get_or_create_process m sid now spawned).2.processes sid2
          = alook m.processes sid2)) ∧
    (get_or_create_process (terminate_process m sid).2 sid now spawned).1 = spawned := by
  refine ⟨?_, ?_, ?_⟩
  · intro p hp
    rw [goc_some m sid now spawned p hp]
    exact ⟨rfl, rfl, rfl⟩
  · intro hnone
    rw [goc_none m sid now spawned hnone]
    exact ⟨rfl, alook_aput_self _ _ _, alook_aput_self _ _ _, alook_aput_self _ _ _,
      fun sid2 h2 => alook_aput_ne _ _ _ _ h2⟩
  · rw [goc_none _ _ _ _ (terminate_lookup_processes m sid)]

theorem excel_c4_resolve_witness :
    (get_or_create_process
        (get_or_create_process Manager.init "s" 1 (Proc.mk 5 true false)).2
        "s" 2 (Proc.mk 6 true false)).1 = Proc.mk 5 true false ∧
    (get_or_create_process Manager.init "s" 1 (Proc.mk 5 true false)).1
        = Proc.mk 5 true false ∧
    (get_or_create_process
        (terminate_process (get_or_create_process Manager.init "s" 1 (Proc.mk 5 true false)).2 "s").2
        "s" 3 (Proc.mk 8 true false)).1 = Proc.mk 8 true false :=
  ⟨((excel_c4_resolve (get_or_create_process Manager.init "s" 1 (Proc.mk 5 true false)).2
      "s" 2 (Proc.mk 6 true false)).1 (Proc.mk 5 true false) rfl).1,
   ((excel_c4_resolve Manager.init "s" 1 (Proc.mk 5 true false)).2.1 rfl).1,
   (excel_c4_resolve (get_or_create_process Manager.init "s" 1 (Proc.mk 5 true false)).2
      "s" 3 (Proc.mk 8 true false)).2.2⟩

/-- C5: one run of the idle-cleanup scan removes exactly the expired
entries: a registered session whose idle time strictly exceeds the timeout
ends up removed from all three maps, and a session whose idle time does
not exceed it keeps its process, lock and timestamp untouched. -/
theorem excel_c5_cleanup (m : Manager) (now : Nat) (sid : String) (la : Nat)
    (hla : alook m.last_activity sid = some la)
    (hnd : (m.last_activity.map Prod.fst).Nodup) :
    (∀ p, alook m.processes sid = some p → now - la > m.idle_timeout →
      alook (cleanup_idle_processes m now).processes sid = none ∧
      alook (cleanup_idle_processes m now).process_locks sid = none ∧
      alook (cleanup_idle_processes m now).last_activity sid = none) ∧
    (¬ now - la > m.idle_timeout →
      alook (cleanup_idle_processes m now).processes sid = alook m.processes sid ∧
      alook (cleanup_idle_processes m now).process_locks sid = alook m.process_locks sid ∧
      alook (cleanup_idle_processes m now).last_activity sid = alook m.last_activity sid) := by
  constructor
  · intro p hp hexp
    rw [cleanup_as_fold]
    exact cleanup_fold_expired now m.idle_timeout m.last_activity m sid la p rfl hnd
      (alook_mem _ _ _ hla) hexp hp
  · intro hfresh
    rw [cleanup_as_fold]
    refine cleanup_fold_untouched now m.idle_timeout m.last_activity m sid rfl ?_
    intro la2 hmem
    have hla2 : la2 = la := by
      have hh := mem_alook_nodup _ _ _ hnd hmem
      rw [hla] at hh
      exact (Option.some.inj hh).symm
    rw [hla2]
    exact hfresh

theorem excel_c5_cleanup_witness :
    (alook (cleanup_idle_processes
        (get_or_create_process Manager.init "s" 10 (Proc.mk 3 true false)).2 311).processes "s"
        = none ∧
     alook (cleanup_idle_processes
        (get_or_create_process Manager.init "s" 10 (Proc.mk 3 true false)).2 311).process_locks "s"
        = none ∧
     alook (cleanup_idle_processes
        (get_or_create_process Manager.init "s" 10 (Proc.mk 3 true false)).2 311).last_activity "s"
        = none) ∧
    alook (cleanup_idle_processes
        (get_or_create_process Manager.init "s" 10 (Proc.mk 3 true false)).2 100).processes "s"
      = alook (get_or_create_process Manager.init "s" 10 (Proc.mk 3 true false)).2.processes "s" :=
  ⟨(excel_c5_cleanup (get_or_create_process Manager.init "s" 10 (Proc.mk 3 true false)).2
      311 "s" 10 rfl (by decide)).1 (Proc.mk 3 true false) rfl (by decide),
   ((excel_c5_cleanup (get_or_create_process Manager.init "s" 10 (Proc.mk 3 true false)).2
      100 "s" 10 rfl (by decide)).2 (by decide)).1⟩

/-- C7: after a successful unary exchange the session's `last_activity`
holds the time of that exchange; after a failed exchange the session has
no fresh activity entry at all (the worker's removal also dropped its
timestamp). -/
theorem excel_c7_activity (m : Manager) (hs : Option String) (gen body : String)
    (now : Nat) (sp : Proc) :
    (∀ line, line ≠ "" →
      alook (handle_request m hs gen body now sp (.readline line)).post.last_activity
          (hs.getD gen) = some now) ∧
    alook (handle_request m hs gen body now sp (.readline "")).post.last_activity
        (hs.getD gen) = none ∧
    (∀ msg,
      alook (handle_request m hs gen body now sp (.writeRaises msg)).post.last_activity
          (hs.getD gen) = none) := by
  obtain ⟨q, hq⟩ := resolved_registered m (hs.getD gen) now sp
  have hterm := terminate_some (resolved m (hs.getD gen) now sp) (hs.getD gen) q hq
  have hnone :
      alook (terminate_process (resolved m (hs.getD gen) now sp) (hs.getD gen)).2.last_activity
          (hs.getD gen) = none := by
    rw [hterm]
    exact alook_adel_self _ _
  refine ⟨?_, ?_, ?_⟩
  · intro line hne
    rw [handle_request_line m hs gen body now sp line hne]
    show alook (resolved m (hs.getD gen) now sp).last_activity (hs.getD gen) = some now
    rw [resolved_la]
    exact alook_aput_self _ _ _
  · rw [handle_request_eof]
    rw [terminate_none _ _ (by
      rw [hterm]
      exact alook_adel_self _ _)]
    exact hnone
  · intro msg
    rw [handle_request_writeRaises]
    exact hnone

theorem excel_c7_activity_witness :
    alook (handle_request Manager.init (some "s") "g" "req" 42 (Proc.mk 1 true false)
        (WorkerReply.readline "ok\n")).post.last_activity "s" = some 42 ∧
    alook (handle_request Manager.init (some "s") "g" "req" 42 (Proc.mk 1 true false)
        (WorkerReply.readline "")).post.last_activity "s" = none :=
  ⟨(excel_c7_activity Manager.init (some "s") "g" "req" 42 (Proc.mk 1 true false)).1
      "ok\n" (by decide),
   (excel_c7_activity Manager.init (some "s") "g" "req" 42 (Proc.mk 1 true false)).2.1⟩

/-- C8 as stated fails on the code: `terminate_process` for a session id
with no registered process removes nothing, so a lock entry created by
`get_process_lock` for an unregistered id survives the call — the id is
not absent from the lock map afterwards. -/
theorem excel_c8_counterexample :
    alook (terminate_process
        (get_process_lock Manager.init "s").2 "s").2.process_locks "s" = some 0 := rfl

/-- C8 amended: when a process is registered, `terminate_process` performs
the graceful-signal / bounded-wait / kill sequence (absorbing any
exception) and afterwards the session id is absent from all three maps;
when no process is registered the call is an exact no-op (so a stale lock
entry, if any, is left in place); and the call is idempotent. -/
theorem excel_c8_amended (m : Manager) (sid : String) :
    (∀ p, alook m.processes sid = some p →
      (terminate_process m sid).1
          = (if p.termRaises then TermOutcome.raisedAbsorbed
             else if p.exitsWithinGrace then TermOutcome.graceful
             else TermOutcome.forcedKill) ∧
      alook (terminate_process m sid).2.processes sid = none ∧
      alook (terminate_process m sid).2.process_locks sid = none ∧
      alook (terminate_process m sid).2.last_activity sid = none) ∧
    (alook m.processes sid = none →
      terminate_process m sid = (TermOutcome.noProcess, m)) ∧
    (terminate_process (terminate_process m sid).2 sid).2
        = (terminate_process m sid).2 := by
  refine ⟨?_, terminate_none m sid, ?_⟩
  · intro p hp
    rw [terminate_some m sid p hp]
    exact ⟨rfl, alook_adel_self _ _, alook_adel_self _ _, alook_adel_self _ _⟩
  · rw [terminate_none _ _ (terminate_lookup_processes m sid)]

theorem excel_c8_amended_witness :
    ((terminate_process
        (get_or_create_process Manager.init "s" 1 (Proc.mk 2 true false)).2 "s").1
      = TermOutcome.graceful ∧
     alook (terminate_process
        (get_or_create_process Manager.init "s" 1 (Proc.mk 2 true false)).2 "s").2.processes "s"
      = none ∧
     alook (terminate_process
        (get_or_create_process Manager.init "s" 1 (Proc.mk 2 true false)).2 "s").2.process_locks "s"
      = none ∧
     alook (terminate_process
        (get_or_create_process Manager.init "s" 1 (Proc.mk 2 true false)).2 "s").2.last_activity "s"
      = none) ∧
    terminate_process Manager.init "s" = (TermOutcome.noProcess, Manager.init) :=
  ⟨(excel_c8_amended (get_or_create_process Manager.init "s" 1 (Proc.mk 2 true false)).2 "s").1
      (Proc.mk 2 true false) rfl,
   (excel_c8_amended Manager.init "s").2.1 rfl⟩

/-- C9 as stated fails on the code: `get_process_lock` on an id with no
registered process creates a lock entry, after which the lock map's key
set differs from the process map's. -/
theorem excel_c9_counterexample :
    (alook (applyMOps [MOp.gpl "s"] Manager.init).process_locks "s").isSome = true ∧
    (alook (applyMOps [MOp.gpl "s"] Manager.init).processes "s").isSome = false :=
  ⟨rfl, rfl⟩

/-- C9 amended: after any sequence of the manager's operations from the
initial state, the process map and the last-activity map have identical
key sets, and every registered process has a lock; the lock map alone may
hold extra entries for unregistered ids (created by `get_process_lock`). -/
theorem excel_c9_amended (ops : List MOp) :
    InSync (applyMOps ops Manager.init) := by
  have hinit : InSync Manager.init := by
    constructor
    · intro sid
      exact Iff.rfl
    · intro sid h
      exact h
  unfold applyMOps
  have main : ∀ (l : List MOp) (m : Manager), InSync m →
      InSync (l.foldl applyMOp m) := by
    intro l
    induction l with
    | nil => exact fun m h => h
    | cons op rest ih =>
        intro m h
        exact ih _ (insync_applyMOp m op h)
  exact main ops Manager.init hinit

/-- C10: if an exception is raised while the stream gateway writes the
request or reads response lines, the generator terminates and removes the
session's worker and emits one final in-band chunk "Error: " plus the
message (the HTTP layer still returns the 200 streaming response with the
session header); a normal end of output ends the chunk stream with no
error chunk and leaves the worker registered. -/
theorem excel_c10_stream (m : Manager) (hs : Option String) (gen body : String)
    (now : Nat) (sp : Proc) :
    (∀ msg reads,
      (handle_stream_request m hs gen body now sp (some msg) reads).chunks
          = ["Error: " ++ msg] ∧
      alook (handle_stream_request m hs gen body now sp (some msg) reads).post.processes
          (hs.getD gen) = none ∧
      (handle_stream_request m hs gen body now sp (some msg) reads).x_session_id
          = hs.getD gen) ∧
    (∀ msg ls, (∀ s ∈ ls, s ≠ "") →
      (handle_stream_request m hs gen body now sp none
          (ls.map ReadEv.rline ++ [ReadEv.rraise msg])).chunks
        = ls ++ ["Error: " ++ msg] ∧
      alook (handle_stream_request m hs gen body now sp none
          (ls.map ReadEv.rline ++ [ReadEv.rraise msg])).post.processes
          (hs.getD gen) = none) ∧
    (∀ ls, (∀ s ∈ ls, s ≠ "") →
      (handle_stream_request m hs gen body now sp none
          (ls.map ReadEv.rline ++ [ReadEv.rline ""])).chunks = ls ∧
      (alook (handle_stream_request m hs gen body now sp none
          (ls.map ReadEv.rline ++ [ReadEv.rline ""])).post.processes
          (hs.getD gen)).isSome = true) := by
  obtain ⟨q, hq⟩ := resolved_registered m (hs.getD gen) now sp
  refine ⟨?_, ?_, ?_⟩
  · intro msg reads
    rw [handle_stream_writeRaises]
    exact ⟨rfl, terminate_lookup_processes _ _, rfl⟩
  · intro msg ls hne
    rw [handle_stream_ok]
    have h := gen_loop_raise (hs.getD gen) now msg ls
      (resolved m (hs.getD gen) now sp) hne
    exact ⟨h.1, h.2⟩
  · intro ls hne
    rw [handle_stream_ok]
    have h := gen_loop_eof (hs.getD gen) now ls (resolved m (hs.getD gen) now sp) hne
    refine ⟨h.1, ?_⟩
    rw [h.2, hq]
    rfl

theorem excel_c10_stream_witness :
    (handle_stream_request Manager.init (some "s") "g" "b" 0 (Proc.mk 1 true false)
        (some "boom") []).chunks = ["Error: boom"] ∧
    alook (handle_stream_request Manager.init (some "s") "g" "b" 0 (Proc.mk 1 true false)
        (some "boom") []).post.processes "s" = none ∧
    (handle_stream_request Manager.init (some "s") "g" "b" 0 (Proc.mk 1 true false)
        none [ReadEv.rline "x\n", ReadEv.rraise "dead"]).chunks
      = ["x\n", "Error: dead"] ∧
    (handle_stream_request Manager.init (some "s") "g" "b" 0 (Proc.mk 1 true false)
        none [ReadEv.rline "x\n", ReadEv.rline ""]).chunks = ["x\n"] ∧
    (alook (handle_stream_request Manager.init (some "s") "g" "b" 0 (Proc.mk 1 true false)
        none [ReadEv.rline "x\n", ReadEv.rline ""]).post.processes "s").isSome = true := by
  have h := excel_c10_stream Manager.init (some "s") "g" "b" 0 (Proc.mk 1 true false)
  have h1 := h.1 "boom" []
  have h2 := h.2.1 "dead" ["x\n"] (by decide)
  have h3 := h.2.2 ["x\n"] (by decide)
  exact ⟨h1.1, h1.2.1, h2.1, h3.1, h3.2⟩

end ExcelProxy
